import Mathlib

/-!
Verification of the core timing / split-tracking logic of the online
stopwatch (src/src/App.tsx).  The JavaScript source is shallowly embedded:

* JavaScript numbers that are always integers in the program are `ℤ`;
  values that can be fractional (the average lap duration, and the
  argument of `formatTime`) are `ℚ`.
* A JavaScript number that may be `NaN` (the result of `parseInt` and any
  arithmetic built from it) is `Option ℤ`, with `none` playing the role
  of `NaN`: arithmetic propagates `none`, and every comparison with
  `none` is `false`, exactly as for `NaN`.
* The component state handled by the React hooks (`time`, `isRunning`,
  `splits`, `target`, `lastSplitTime`) is the `State` structure, and each
  handler is a function `State → State`; `Date.now()` becomes an explicit
  argument of `handleSplit`.
-/

/-- JavaScript truncation toward zero, as performed by `x | 0` or implicitly
by the `%` operator on numbers. -/
def jsTrunc (q : ℚ) : ℤ := if 0 ≤ q then ⌊q⌋ else ⌈q⌉

/-- The JavaScript `%` operator on numbers: `a % b = a - b * trunc (a / b)`. -/
def jsMod (a b : ℚ) : ℚ := a - b * jsTrunc (a / b)

/-- Addition of JavaScript numbers that may be `NaN` (`none`). -/
def jsAdd (a b : Option ℤ) : Option ℤ :=
  match a, b with
  | some x, some y => some (x + y)
  | _, _ => none

/-- Multiplication of a possibly-`NaN` JavaScript number by an integer
literal (the literal itself is never `NaN`). -/
def jsMulC (a : Option ℤ) (c : ℤ) : Option ℤ := a.map (· * c)

/-- Numeric value of a list of decimal digit characters. -/
def digitsVal (l : List Char) : ℕ :=
  l.foldl (fun acc c => 10 * acc + (c.toNat - '0'.toNat)) 0

/-- JavaScript `parseInt(s)` restricted to radix 10: skip leading
whitespace, read an optional sign, then the longest prefix of decimal
digits; the result is `NaN` (`none`) when that prefix is empty. -/
def parseIntJS (s : String) : Option ℤ :=
  let l := s.toList.dropWhile (fun c => c == ' ' || c == '\t' || c == '\n')
  match l with
  | '-' :: rest =>
      let ds := rest.takeWhile Char.isDigit
      if ds.isEmpty then none else some (-(digitsVal ds : ℤ))
  | '+' :: rest =>
      let ds := rest.takeWhile Char.isDigit
      if ds.isEmpty then none else some (digitsVal ds)
  | _ =>
      let ds := l.takeWhile Char.isDigit
      if ds.isEmpty then none else some (digitsVal ds)

/-- `hours = Math.floor(ms / 3600000)` (App.tsx line 29). -/
def fmtHours (ms : ℚ) : ℤ := ⌊ms / 3600000⌋

/-- `minutes = Math.floor((ms % 3600000) / 60000)` (App.tsx line 30). -/
def fmtMinutes (ms : ℚ) : ℤ := ⌊jsMod ms 3600000 / 60000⌋

/-- `seconds = Math.floor((ms % 60000) / 1000)` (App.tsx line 31). -/
def fmtSeconds (ms : ℚ) : ℤ := ⌊jsMod ms 60000 / 1000⌋

/-- `milliseconds = Math.floor((ms % 1000) / 10)` (App.tsx line 32):
hundredths of a second. -/
def fmtHundredths (ms : ℚ) : ℤ := ⌊jsMod ms 1000 / 10⌋

/-- JavaScript `String.prototype.padStart`. -/
def padStart (s : String) (n : ℕ) (c : Char) : String :=
  String.mk (List.replicate (n - s.length) c) ++ s

/-- The record returned by `formatTime`: four padded digit strings. -/
structure FormattedTime where
  hours : String
  minutes : String
  seconds : String
  milliseconds : String
deriving DecidableEq, Repr

/-- `formatTime` (App.tsx lines 28-40). -/
def formatTime (ms : ℚ) : FormattedTime :=
  { hours := padStart (toString (fmtHours ms)) 2 '0'
    minutes := padStart (toString (fmtMinutes ms)) 2 '0'
    seconds := padStart (toString (fmtSeconds ms)) 2 '0'
    milliseconds := padStart (toString (fmtHundredths ms)) 2 '0' }

/-- `hh:mm:ss.cc` assembly used for the `time` and `lap` labels
(App.tsx lines 108-109). -/
def timeString (f : FormattedTime) : String :=
  f.hours ++ ":" ++ f.minutes ++ ":" ++ f.seconds ++ "." ++ f.milliseconds

/-- The `SplitTime` interface (App.tsx lines 5-10). -/
structure SplitTime where
  id : ℤ
  time : String
  duration : ℤ
  lap : String
deriving DecidableEq, Repr

/-- The `Target` interface (App.tsx lines 12-16): three string fields. -/
structure Target where
  hours : String
  minutes : String
  seconds : String
deriving DecidableEq, Repr

/-- `targetMs` as computed inside the tick (App.tsx lines 63-65):
`parseInt(hours)*3600000 + parseInt(minutes)*60000 + parseInt(seconds)*1000`,
with `NaN` (`none`) propagating as in JavaScript. -/
def targetMs (t : Target) : Option ℤ :=
  jsAdd (jsAdd (jsMulC (parseIntJS t.hours) 3600000)
               (jsMulC (parseIntJS t.minutes) 60000))
        (jsMulC (parseIntJS t.seconds) 1000)

/-- Modelled from the spec's words (§7), for comparison with `targetMs`:
"treated as contributing 0 to TargetMs for any unparseable field". -/
def targetMsSpecModel (t : Target) : ℤ :=
  (parseIntJS t.hours).getD 0 * 3600000 +
  (parseIntJS t.minutes).getD 0 * 60000 +
  (parseIntJS t.seconds).getD 0 * 1000

/-- The alert condition of the tick (App.tsx line 66):
`targetMs > 0 && newTime >= targetMs && prevTime < targetMs`.
Every comparison with `NaN` (`none`) is `false`. -/
def shouldAlert (prevTime newTime : ℤ) (tMs : Option ℤ) : Bool :=
  match tMs with
  | none => false
  | some T => decide (0 < T) && decide (T ≤ newTime) && decide (prevTime < T)

/-- The reactive state owned by the `App` component. -/
structure State where
  time : ℤ
  isRunning : Bool
  splits : List SplitTime
  target : Target
  lastSplitTime : ℤ
deriving DecidableEq, Repr

/-- Initial state (App.tsx lines 19-25). -/
def initState : State :=
  { time := 0, isRunning := false, splits := [],
    target := { hours := "00", minutes := "00", seconds := "00" },
    lastSplitTime := 0 }

/-- One firing of the interval callback (App.tsx lines 60-71): while
running, `time` advances by the nominal 10 ms; the interval only exists
while `isRunning` is true. -/
def tickStep (s : State) : State :=
  if s.isRunning then { s with time := s.time + 10 } else s

/-- `handleStartStop` (App.tsx lines 92-94). -/
def handleStartStop (s : State) : State :=
  { s with isRunning := !s.isRunning }

/-- `handleReset` (App.tsx lines 96-101). -/
def handleReset (s : State) : State :=
  { s with isRunning := false, time := 0, splits := [], lastSplitTime := 0 }

/-- `handleSplit` (App.tsx lines 103-120); `now` is the value of
`Date.now()` at the moment of the call. -/
def handleSplit (now : ℤ) (s : State) : State :=
  if s.isRunning then
    let currentSplit := s.time - s.lastSplitTime
    { s with
        splits := s.splits ++
          [{ id := now,
             time := timeString (formatTime (s.time : ℚ)),
             duration := currentSplit,
             lap := timeString (formatTime (currentSplit : ℚ)) }],
        lastSplitTime := s.time }
  else s

/-- The discrete events that can act on the state: one interval firing,
the Start/Pause toggle, a split request (carrying `Date.now()`), reset. -/
inductive Ev where
  | tick : Ev
  | toggle : Ev
  | split : ℤ → Ev
  | reset : Ev
deriving DecidableEq, Repr

/-- Dispatch of one event to the corresponding handler. -/
def step (s : State) : Ev → State
  | Ev.tick => tickStep s
  | Ev.toggle => handleStartStop s
  | Ev.split now => handleSplit now s
  | Ev.reset => handleReset s

/-- A run of the widget: the initial state driven by a list of events. -/
def run (es : List Ev) : State := es.foldl step initState

/-- `lapTimes = splits.map(split => split.duration)` (App.tsx line 45). -/
def lapTimes (splits : List SplitTime) : List ℤ := splits.map (·.duration)

/-- `avgLap = lapTimes.reduce((a, b) => a + b, 0) / lapTimes.length`
(App.tsx line 46); exact (rational) division. -/
def avgLap (splits : List SplitTime) : ℚ :=
  (((lapTimes splits).foldl (· + ·) 0 : ℤ) : ℚ) / ((lapTimes splits).length : ℚ)

/-- `bestLap = Math.min(...lapTimes)` (App.tsx line 47); the empty case is
unreachable behind the length guard of `calculateStats`. -/
def bestLap (splits : List SplitTime) : ℤ :=
  match lapTimes splits with
  | [] => 0
  | x :: xs => xs.foldl min x

/-- `worstLap = Math.max(...lapTimes)` (App.tsx line 48). -/
def worstLap (splits : List SplitTime) : ℤ :=
  match lapTimes splits with
  | [] => 0
  | x :: xs => xs.foldl max x

/-- The record returned by `calculateStats` (App.tsx lines 50-54). -/
structure Stats where
  average : FormattedTime
  best : FormattedTime
  worst : FormattedTime
deriving DecidableEq, Repr

/-- `calculateStats` (App.tsx lines 42-55): `null` on an empty split list,
otherwise the formatted mean / min / max of the lap durations. -/
def calculateStats (splits : List SplitTime) : Option Stats :=
  if splits.length = 0 then none
  else some
    { average := formatTime (avgLap splits)
      best := formatTime ((bestLap splits : ℤ) : ℚ)
      worst := formatTime ((worstLap splits : ℤ) : ℚ) }


lemma jsTrunc_of_nonneg (q : ℚ) (h : 0 ≤ q) : jsTrunc q = ⌊q⌋ := if_pos h

lemma jsMod_eq_of_nonneg (q b : ℚ) (hq : 0 ≤ q) (hb : 0 < b) :
    jsMod q b = q - b * ⌊q / b⌋ := by
  unfold jsMod
  rw [jsTrunc_of_nonneg _ (div_nonneg hq hb.le)]

lemma jsMod_nonneg (q b : ℚ) (hq : 0 ≤ q) (hb : 0 < b) : 0 ≤ jsMod q b := by
  rw [jsMod_eq_of_nonneg q b hq hb]
  have h1 : ((⌊q / b⌋ : ℚ)) ≤ q / b := Int.floor_le (q / b)
  have h2 : b * ((⌊q / b⌋ : ℚ)) ≤ b * (q / b) := by
    exact mul_le_mul_of_nonneg_left h1 hb.le
  rw [mul_comm b (q / b), div_mul_cancel₀ q hb.ne'] at h2
  linarith

lemma jsMod_lt (q b : ℚ) (hq : 0 ≤ q) (hb : 0 < b) : jsMod q b < b := by
  rw [jsMod_eq_of_nonneg q b hq hb]
  have h1 : q / b < (⌊q / b⌋ : ℚ) + 1 := Int.lt_floor_add_one (q / b)
  have h2 : b * (q / b) < b * ((⌊q / b⌋ : ℚ) + 1) := by
    exact mul_lt_mul_of_pos_left h1 hb
  rw [mul_comm b (q / b), div_mul_cancel₀ q hb.ne', mul_add, mul_one] at h2
  linarith

lemma floor_natCast_div (a b : ℕ) : ⌊(a : ℚ) / (b : ℚ)⌋ = ((a / b : ℕ) : ℤ) := by
  calc ⌊(a : ℚ) / (b : ℚ)⌋ = (a : ℤ) / (b : ℤ) := by
        rw [← Rat.floor_intCast_div_natCast (a : ℤ) b]
        norm_num
    _ = ((a / b : ℕ) : ℤ) := (Int.natCast_div a b).symm

lemma jsMod_natCast (e m : ℕ) (hm : 0 < m) :
    jsMod (e : ℚ) (m : ℚ) = ((e % m : ℕ) : ℚ) := by
  rw [jsMod_eq_of_nonneg _ _ (by positivity) (by exact_mod_cast hm), floor_natCast_div e m]
  have h := Nat.div_add_mod e m
  have h2 : (m : ℚ) * ((e / m : ℕ) : ℚ) + ((e % m : ℕ) : ℚ) = (e : ℚ) := by
    exact_mod_cast congrArg (Nat.cast : ℕ → ℚ) h
  rw [Int.cast_natCast]
  linarith

lemma fmtHours_natCast (e : ℕ) : fmtHours (e : ℚ) = ((e / 3600000 : ℕ) : ℤ) := by
  unfold fmtHours
  rw [show (3600000 : ℚ) = ((3600000 : ℕ) : ℚ) by norm_num, floor_natCast_div]

lemma fmtMinutes_natCast (e : ℕ) :
    fmtMinutes (e : ℚ) = (((e % 3600000) / 60000 : ℕ) : ℤ) := by
  unfold fmtMinutes
  rw [show (3600000 : ℚ) = ((3600000 : ℕ) : ℚ) by norm_num,
    jsMod_natCast e 3600000 (by norm_num),
    show (60000 : ℚ) = ((60000 : ℕ) : ℚ) by norm_num, floor_natCast_div]

lemma fmtSeconds_natCast (e : ℕ) :
    fmtSeconds (e : ℚ) = (((e % 60000) / 1000 : ℕ) : ℤ) := by
  unfold fmtSeconds
  rw [show (60000 : ℚ) = ((60000 : ℕ) : ℚ) by norm_num,
    jsMod_natCast e 60000 (by norm_num),
    show (1000 : ℚ) = ((1000 : ℕ) : ℚ) by norm_num, floor_natCast_div]

lemma fmtHundredths_natCast (e : ℕ) :
    fmtHundredths (e : ℚ) = (((e % 1000) / 10 : ℕ) : ℤ) := by
  unfold fmtHundredths
  rw [show (1000 : ℚ) = ((1000 : ℕ) : ℚ) by norm_num,
    jsMod_natCast e 1000 (by norm_num),
    show (10 : ℚ) = ((10 : ℕ) : ℚ) by norm_num, floor_natCast_div]

lemma le_length_padStart (s : String) (n : ℕ) (c : Char) :
    n ≤ (padStart s n c).length := by
  have h : (padStart s n c).length = (n - s.length) + s.length := by
    simp [padStart]
  omega

/-- C3: for every non-negative integer millisecond count `e`, the four
fields computed by `formatTime` are the truncated hour/minute/second/
hundredth components: their weighted sum reconstructs `e` to within the
10 ms granularity, minutes and seconds lie in `[0, 59]`, hundredths lie
in `[0, 99]` and equal `(e % 1000) / 10` truncated, and each rendered
string is padded to at least two characters. -/
theorem formatTime_field_decomposition (e : ℕ) :
    fmtHours (e : ℚ) = ((e / 3600000 : ℕ) : ℤ) ∧
    fmtMinutes (e : ℚ) = (((e % 3600000) / 60000 : ℕ) : ℤ) ∧
    fmtSeconds (e : ℚ) = (((e % 60000) / 1000 : ℕ) : ℤ) ∧
    fmtHundredths (e : ℚ) = (((e % 1000) / 10 : ℕ) : ℤ) ∧
    3600000 * fmtHours (e : ℚ) + 60000 * fmtMinutes (e : ℚ) +
        1000 * fmtSeconds (e : ℚ) + 10 * fmtHundredths (e : ℚ) ≤ (e : ℤ) ∧
    (e : ℤ) < 3600000 * fmtHours (e : ℚ) + 60000 * fmtMinutes (e : ℚ) +
        1000 * fmtSeconds (e : ℚ) + 10 * fmtHundredths (e : ℚ) + 10 ∧
    0 ≤ fmtMinutes (e : ℚ) ∧ fmtMinutes (e : ℚ) ≤ 59 ∧
    0 ≤ fmtSeconds (e : ℚ) ∧ fmtSeconds (e : ℚ) ≤ 59 ∧
    0 ≤ fmtHundredths (e : ℚ) ∧ fmtHundredths (e : ℚ) ≤ 99 ∧
    2 ≤ (formatTime (e : ℚ)).hours.length ∧
    2 ≤ (formatTime (e : ℚ)).minutes.length ∧
    2 ≤ (formatTime (e : ℚ)).seconds.length ∧
    2 ≤ (formatTime (e : ℚ)).milliseconds.length := by
  have h1 := fmtHours_natCast e
  have h2 := fmtMinutes_natCast e
  have h3 := fmtSeconds_natCast e
  have h4 := fmtHundredths_natCast e
  refine ⟨h1, h2, h3, h4, ?_, ?_, ?_, ?_, ?_, ?_, ?_, ?_,
    le_length_padStart _ 2 '0', le_length_padStart _ 2 '0',
    le_length_padStart _ 2 '0', le_length_padStart _ 2 '0'⟩
  all_goals omega

/-- The safety invariant of the widget state: the last split boundary
never exceeds the elapsed time, and every recorded lap duration is
non-negative. -/
def StateInv (s : State) : Prop :=
  s.lastSplitTime ≤ s.time ∧ ∀ sp ∈ s.splits, 0 ≤ sp.duration

lemma stateInv_init : StateInv initState := by
  constructor
  · simp [initState]
  · intro sp h
    simp [initState] at h

lemma stateInv_step (s : State) (e : Ev) (h : StateInv s) : StateInv (step s e) := by
  obtain ⟨hb, hd⟩ := h
  cases e with
  | tick =>
      unfold step tickStep
      by_cases hr : s.isRunning = true
      · simp only [hr, if_true]
        exact ⟨by simp; omega, by simpa using hd⟩
      · simp only [hr, if_false]
        exact ⟨hb, hd⟩
  | toggle => exact ⟨hb, hd⟩
  | split now =>
      unfold step handleSplit
      by_cases hr : s.isRunning = true
      · simp only [hr, if_true]
        refine ⟨by simp, ?_⟩
        intro sp hsp
        simp only [List.mem_append, List.mem_singleton] at hsp
        rcases hsp with hsp | rfl
        · exact hd sp hsp
        · simp
          omega
      · simp only [hr, if_false]
        exact ⟨hb, hd⟩
  | reset =>
      refine ⟨by simp [step, handleReset], ?_⟩
      intro sp hsp
      simp [step, handleReset] at hsp

lemma stateInv_foldl (es : List Ev) :
    ∀ s : State, StateInv s → StateInv (es.foldl step s) := by
  induction es with
  | nil => intro s h; exact h
  | cons e es ih =>
      intro s h
      exact ih (step s e) (stateInv_step s e h)

/-- C9: in every state reachable by any interleaving of ticks,
start/pause toggles, splits and resets, the last split boundary is at
most the elapsed time, and every recorded split's lap duration is
non-negative. -/
theorem run_invariant (es : List Ev) :
    (run es).lastSplitTime ≤ (run es).time ∧
    ∀ sp ∈ (run es).splits, 0 ≤ sp.duration :=
  stateInv_foldl es initState stateInv_init

/-- C1: the tick's alert condition is true exactly when
`TargetMs > 0 ∧ newElapsed ≥ TargetMs ∧ previousElapsed < TargetMs`;
consequently, along the tick sequence `10k → 10k + 10`, a fixed positive
target fires the alert on exactly one tick, and the all-zero target
`00:00:00` never fires it. -/
theorem shouldAlert_crossing_spec :
    (∀ p n T : ℤ, shouldAlert p n (some T) = true ↔ (0 < T ∧ T ≤ n ∧ p < T)) ∧
    (∀ T : ℤ, 0 < T →
      ∃! k : ℕ, shouldAlert (10 * (k : ℤ)) (10 * (k : ℤ) + 10) (some T) = true) ∧
    (∀ p n : ℤ,
      shouldAlert p n (targetMs { hours := "00", minutes := "00", seconds := "00" }) = false) := by
  have hiff : ∀ p n T : ℤ, shouldAlert p n (some T) = true ↔ (0 < T ∧ T ≤ n ∧ p < T) := by
    intro p n T
    simp [shouldAlert, and_assoc]
  refine ⟨hiff, ?_, ?_⟩
  · intro T hT
    refine ⟨(T - 1).toNat / 10, ?_, ?_⟩
    · exact (hiff _ _ T).mpr ⟨hT, by omega, by omega⟩
    · intro y hy
      have hy2 := (hiff (10 * (y : ℤ)) (10 * (y : ℤ) + 10) T).mp hy
      omega
  · intro p n
    have h : targetMs { hours := "00", minutes := "00", seconds := "00" } = some 0 := rfl
    rw [h]
    simp [shouldAlert]

/-- Witness for C1 at the spec's example: target 5000 ms fires on the
4990 → 5000 tick, not on 5000 → 5010, and the all-zero target never
fires. -/
theorem shouldAlert_crossing_witness :
    shouldAlert 4990 5000 (some 5000) = true ∧
    shouldAlert 5000 5010 (some 5000) = false ∧
    shouldAlert 123 456 (targetMs { hours := "00", minutes := "00", seconds := "00" }) = false :=
  ⟨(shouldAlert_crossing_spec.1 4990 5000 5000).mpr (by norm_num), by decide,
    shouldAlert_crossing_spec.2.2 123 456⟩

lemma jsAdd_none_left (b : Option ℤ) : jsAdd none b = none := by
  cases b <;> rfl

lemma jsAdd_none_right (a : Option ℤ) : jsAdd a none = none := by
  cases a <;> rfl

/-- C2 (amended): the target computation is total and never raises; when
all three fields parse, `TargetMs` is the weighted sum; but when any
field is unparseable, `parseInt` yields `NaN`, the `NaN` propagates
through the whole sum, and the alert condition is false for every pair
of elapsed values — the unparseable field does not merely contribute 0. -/
theorem targetMs_nan_behavior :
    (∀ (t : Target) (h m s : ℤ),
      parseIntJS t.hours = some h → parseIntJS t.minutes = some m →
      parseIntJS t.seconds = some s →
      targetMs t = some (h * 3600000 + m * 60000 + s * 1000)) ∧
    (∀ t : Target,
      parseIntJS t.hours = none ∨ parseIntJS t.minutes = none ∨
        parseIntJS t.seconds = none →
      targetMs t = none) ∧
    (∀ p n : ℤ, shouldAlert p n none = false) := by
  refine ⟨?_, ?_, fun p n => rfl⟩
  · intro t h m s hh hm hs
    simp [targetMs, jsAdd, jsMulC, hh, hm, hs]
  · intro t ht
    rcases ht with h | h | h
    · rw [targetMs, h]
      rw [show jsMulC none 3600000 = none from rfl, jsAdd_none_left, jsAdd_none_left]
    · rw [targetMs, h]
      rw [show jsMulC none 60000 = none from rfl, jsAdd_none_right, jsAdd_none_left]
    · rw [targetMs, h]
      rw [show jsMulC none 1000 = none from rfl, jsAdd_none_right]

/-- Witness for C2: an all-parseable target sums correctly; an
unparseable hours field makes the whole target `NaN`. -/
theorem targetMs_nan_behavior_witness :
    targetMs { hours := "01", minutes := "02", seconds := "03" } = some 3723000 ∧
    targetMs { hours := "ab", minutes := "01", seconds := "00" } = none := by
  constructor
  · have h := targetMs_nan_behavior.1 { hours := "01", minutes := "02", seconds := "03" }
      1 2 3 (by decide) (by decide) (by decide)
    rw [h]
    norm_num
  · exact targetMs_nan_behavior.2.1 _ (Or.inl (by decide))

/-- C2 counterexample: for the target `{hours := "ab", minutes := "01",
seconds := "00"}` the claim predicts `TargetMs = 60000 > 0` (the
unparseable field contributing 0) and an alert at the 59990 → 60000
crossing; the code instead produces `NaN` and never alerts. -/
theorem targetMs_unparseable_counterexample :
    targetMsSpecModel { hours := "ab", minutes := "01", seconds := "00" } = 60000 ∧
    targetMs { hours := "ab", minutes := "01", seconds := "00" } = none ∧
    shouldAlert 59990 60000 (targetMs { hours := "ab", minutes := "01", seconds := "00" }) = false :=
  ⟨by decide, by decide, by decide⟩

/-- C4: reset forces Stopped, zero elapsed time, an empty split sequence
and a zero last-split boundary, from any prior state. -/
theorem handleReset_spec (s : State) :
    (handleReset s).isRunning = false ∧ (handleReset s).time = 0 ∧
    (handleReset s).splits = [] ∧ (handleReset s).lastSplitTime = 0 := by
  simp [handleReset]

/-- C5: a split requested while stopped is a complete no-op: the state,
including the split sequence, the elapsed time and the last split
boundary, is unchanged, and no error is raised (the function is total). -/
theorem handleSplit_stopped (now : ℤ) (s : State) (h : s.isRunning = false) :
    handleSplit now s = s := by
  simp [handleSplit, h]

/-- Witness for C5: splitting the (stopped) initial state changes
nothing. -/
theorem handleSplit_stopped_witness : handleSplit 5 initState = initState :=
  handleSplit_stopped 5 initState rfl

/-- C8 is violated by the code: two splits performed while running during
the same wall-clock millisecond (`Date.now()` returning 1700000000000
both times) receive the same id. -/
theorem split_id_collision :
    ((handleSplit 1700000000000 (handleSplit 1700000000000
        (handleStartStop initState))).splits.map (·.id)) =
      [1700000000000, 1700000000000] := by
  simp [handleSplit, handleStartStop, initState]

lemma foldl_min_mem (x : ℤ) (l : List ℤ) : l.foldl min x ∈ x :: l := by
  induction l generalizing x with
  | nil => simp
  | cons y ys ih =>
      simp only [List.foldl_cons]
      rcases List.mem_cons.mp (ih (min x y)) with h1 | h1
      · rw [h1]
        rcases min_choice x y with hm | hm <;> simp [hm]
      · simp [h1]

lemma foldl_min_le (x : ℤ) (l : List ℤ) : ∀ y ∈ x :: l, l.foldl min x ≤ y := by
  induction l generalizing x with
  | nil =>
      intro y hy
      simp at hy
      simp [hy]
  | cons z zs ih =>
      intro y hy
      simp only [List.foldl_cons]
      rcases List.mem_cons.mp hy with he | hy1
      · rw [he]
        exact le_trans (ih (min x z) (min x z) (List.mem_cons_self _ _)) (min_le_left x z)
      rcases List.mem_cons.mp hy1 with he | hy2
      · rw [he]
        exact le_trans (ih (min x z) (min x z) (List.mem_cons_self _ _)) (min_le_right x z)
      · exact ih (min x z) y (List.mem_cons_of_mem _ hy2)

lemma foldl_max_mem (x : ℤ) (l : List ℤ) : l.foldl max x ∈ x :: l := by
  induction l generalizing x with
  | nil => simp
  | cons y ys ih =>
      simp only [List.foldl_cons]
      rcases List.mem_cons.mp (ih (max x y)) with h1 | h1
      · rw [h1]
        rcases max_choice x y with hm | hm <;> simp [hm]
      · simp [h1]

lemma foldl_le_max (x : ℤ) (l : List ℤ) : ∀ y ∈ x :: l, y ≤ l.foldl max x := by
  induction l generalizing x with
  | nil =>
      intro y hy
      simp at hy
      simp [hy]
  | cons z zs ih =>
      intro y hy
      simp only [List.foldl_cons]
      rcases List.mem_cons.mp hy with he | hy1
      · rw [he]
        exact le_trans (le_max_left x z) (ih (max x z) (max x z) (List.mem_cons_self _ _))
      rcases List.mem_cons.mp hy1 with he | hy2
      · rw [he]
        exact le_trans (le_max_right x z) (ih (max x z) (max x z) (List.mem_cons_self _ _))
      · exact ih (max x z) y (List.mem_cons_of_mem _ hy2)

lemma foldl_add_eq_sum (l : List ℤ) : l.foldl (· + ·) 0 = l.sum :=
  List.sum_eq_foldl.symm

/-- C7: the statistics calculation is a pure function of the split list:
`none` on the empty list; on a non-empty list it returns the formatted
arithmetic mean, minimum and maximum of the lap durations; on lap
durations `[100, 300, 200]` these are 200, 100 and 300 ms. -/
theorem calculateStats_spec :
    calculateStats [] = none ∧
    (∀ (sp : SplitTime) (l : List SplitTime),
      calculateStats (sp :: l) =
        some { average := formatTime (avgLap (sp :: l)),
               best := formatTime ((bestLap (sp :: l) : ℤ) : ℚ),
               worst := formatTime ((worstLap (sp :: l) : ℤ) : ℚ) } ∧
      avgLap (sp :: l) = ((lapTimes (sp :: l)).sum : ℚ) / ((sp :: l).length : ℚ) ∧
      bestLap (sp :: l) ∈ lapTimes (sp :: l) ∧
      (∀ d ∈ lapTimes (sp :: l), bestLap (sp :: l) ≤ d) ∧
      worstLap (sp :: l) ∈ lapTimes (sp :: l) ∧
      (∀ d ∈ lapTimes (sp :: l), d ≤ worstLap (sp :: l))) ∧
    avgLap [⟨1, "", 100, ""⟩, ⟨2, "", 300, ""⟩, ⟨3, "", 200, ""⟩] = 200 ∧
    bestLap [⟨1, "", 100, ""⟩, ⟨2, "", 300, ""⟩, ⟨3, "", 200, ""⟩] = 100 ∧
    worstLap [⟨1, "", 100, ""⟩, ⟨2, "", 300, ""⟩, ⟨3, "", 200, ""⟩] = 300 := by
  refine ⟨rfl, ?_, by norm_num [avgLap, lapTimes], by decide, by decide⟩
  intro sp l
  refine ⟨by simp [calculateStats], ?_, ?_, ?_, ?_, ?_⟩
  · unfold avgLap
    rw [foldl_add_eq_sum]
    simp [lapTimes]
  · simp only [bestLap, lapTimes, List.map_cons]
    exact foldl_min_mem _ _
  · intro d hd
    simp only [bestLap, lapTimes, List.map_cons]
    simp only [lapTimes, List.map_cons] at hd
    exact foldl_min_le _ _ d hd
  · simp only [worstLap, lapTimes, List.map_cons]
    exact foldl_max_mem _ _
  · intro d hd
    simp only [worstLap, lapTimes, List.map_cons]
    simp only [lapTimes, List.map_cons] at hd
    exact foldl_le_max _ _ d hd

/-- Witness for C7: in the `[100, 300, 200]` example, 100 is a recorded
lap duration and the best lap is at most 100. -/
theorem calculateStats_spec_witness :
    (100 : ℤ) ∈ lapTimes [⟨1, "", 100, ""⟩, ⟨2, "", 300, ""⟩, ⟨3, "", 200, ""⟩] ∧
    bestLap [⟨1, "", 100, ""⟩, ⟨2, "", 300, ""⟩, ⟨3, "", 200, ""⟩] ≤ 100 :=
  ⟨by decide,
    (calculateStats_spec.2.1 ⟨1, "", 100, ""⟩
      [⟨2, "", 300, ""⟩, ⟨3, "", 200, ""⟩]).2.2.2.1 100 (by decide)⟩

lemma floor_div_range (r b : ℚ) (m : ℤ) (h0 : 0 ≤ r) (hb : 0 < b)
    (hr : r < b * (m : ℚ)) : 0 ≤ ⌊r / b⌋ ∧ ⌊r / b⌋ < m := by
  constructor
  · exact Int.floor_nonneg.mpr (div_nonneg h0 hb.le)
  · rw [Int.floor_lt, div_lt_iff₀ hb, mul_comm]
    exact hr

/-- C10: the average lap duration is an exact rational division and can
be a non-integer (lap durations `[100, 105]` give `102.5`), and the
formatter keeps every field of any non-negative rational input in range,
because each component is truncated with a floor. -/
theorem avgLap_fractional_format_ranges :
    avgLap [⟨1, "", 100, ""⟩, ⟨2, "", 105, ""⟩] = 205 / 2 ∧
    (∀ z : ℤ, avgLap [⟨1, "", 100, ""⟩, ⟨2, "", 105, ""⟩] ≠ (z : ℚ)) ∧
    (∀ q : ℚ, 0 ≤ q →
      0 ≤ fmtHours q ∧
      0 ≤ fmtMinutes q ∧ fmtMinutes q ≤ 59 ∧
      0 ≤ fmtSeconds q ∧ fmtSeconds q ≤ 59 ∧
      0 ≤ fmtHundredths q ∧ fmtHundredths q ≤ 99) := by
  have havg : avgLap [⟨1, "", 100, ""⟩, ⟨2, "", 105, ""⟩] = 205 / 2 := by
    norm_num [avgLap, lapTimes]
  refine ⟨havg, ?_, ?_⟩
  · intro z h
    rw [havg, div_eq_iff (by norm_num : (2 : ℚ) ≠ 0)] at h
    have h2 : (205 : ℤ) = z * 2 := by exact_mod_cast h
    omega
  · intro q hq
    have hm3 := floor_div_range (jsMod q 3600000) 60000 60
      (jsMod_nonneg q 3600000 hq (by norm_num)) (by norm_num)
      (by
        have h := jsMod_lt q 3600000 hq (by norm_num)
        push_cast
        linarith)
    have hm60 := floor_div_range (jsMod q 60000) 1000 60
      (jsMod_nonneg q 60000 hq (by norm_num)) (by norm_num)
      (by
        have h := jsMod_lt q 60000 hq (by norm_num)
        push_cast
        linarith)
    have hm1 := floor_div_range (jsMod q 1000) 10 100
      (jsMod_nonneg q 1000 hq (by norm_num)) (by norm_num)
      (by
        have h := jsMod_lt q 1000 hq (by norm_num)
        push_cast
        linarith)
    have hh : 0 ≤ fmtHours q := Int.floor_nonneg.mpr (div_nonneg hq (by norm_num))
    unfold fmtMinutes fmtSeconds fmtHundredths
    refine ⟨hh, hm3.1, by omega, hm60.1, by omega, hm1.1, by omega⟩

/-- Witness for C10 at the non-integer input `102.5 = 205/2`. -/
theorem avgLap_fractional_format_ranges_witness :
    0 ≤ (205 / 2 : ℚ) ∧
    (0 ≤ fmtHours (205 / 2 : ℚ) ∧
     0 ≤ fmtMinutes (205 / 2 : ℚ) ∧ fmtMinutes (205 / 2 : ℚ) ≤ 59 ∧
     0 ≤ fmtSeconds (205 / 2 : ℚ) ∧ fmtSeconds (205 / 2 : ℚ) ≤ 59 ∧
     0 ≤ fmtHundredths (205 / 2 : ℚ) ∧ fmtHundredths (205 / 2 : ℚ) ≤ 99) :=
  ⟨by norm_num, avgLap_fractional_format_ranges.2.2 (205 / 2) (by norm_num)⟩

/-- `n` consecutive firings of the interval callback. -/
def doTicks : ℕ → State → State
  | 0, s => s
  | n + 1, s => doTicks n (tickStep s)

/-- A timed split session: for each pair `(n, id)`, the interval fires
`n` times and then the user requests a split, `Date.now()` returning
`id`. -/
def sessionEvents : List (ℕ × ℤ) → List Ev
  | [] => []
  | p :: ps => List.replicate p.1 Ev.tick ++ (Ev.split p.2 :: sessionEvents ps)

/-- Total elapsed milliseconds contributed by the ticks of a session. -/
def tTotal (ps : List (ℕ × ℤ)) : ℤ := 10 * (((ps.map Prod.fst).sum : ℕ) : ℤ)

/-- The cumulative elapsed time at which the `i`-th split of a session is
recorded (`tTime ps 0 = 0`). -/
def tTime (ps : List (ℕ × ℤ)) (i : ℕ) : ℤ := tTotal (ps.take i)

/-- The split records a session appends when it starts with the last
split boundary equal to the elapsed time `t0`. -/
def expectedSplits (t0 : ℤ) : List (ℕ × ℤ) → List SplitTime
  | [] => []
  | p :: ps =>
      { id := p.2,
        time := timeString (formatTime ((t0 + 10 * (p.1 : ℤ) : ℤ) : ℚ)),
        duration := 10 * (p.1 : ℤ),
        lap := timeString (formatTime ((10 * (p.1 : ℤ) : ℤ) : ℚ)) } ::
      expectedSplits (t0 + 10 * (p.1 : ℤ)) ps

lemma tickStep_running (s : State) (h : s.isRunning = true) :
    tickStep s = { s with time := s.time + 10 } := by
  simp [tickStep, h]

lemma doTicks_running (n : ℕ) : ∀ s : State, s.isRunning = true →
    doTicks n s = { s with time := s.time + 10 * (n : ℤ) } := by
  induction n with
  | zero =>
      intro s h
      cases s
      simp [doTicks]
  | succ n ih =>
      intro s h
      show doTicks n (tickStep s) = _
      rw [tickStep_running s h, ih _ (by simp [h])]
      cases s
      simp
      ring

lemma foldl_step_replicate_tick (n : ℕ) : ∀ s : State,
    (List.replicate n Ev.tick).foldl step s = doTicks n s := by
  induction n with
  | zero => intro s; rfl
  | succ n ih =>
      intro s
      rw [List.replicate_succ, List.foldl_cons]
      exact ih (tickStep s)

lemma session_run (ps : List (ℕ × ℤ)) : ∀ s : State, s.isRunning = true →
    s.lastSplitTime = s.time →
    (sessionEvents ps).foldl step s =
      { time := s.time + tTotal ps, isRunning := true,
        splits := s.splits ++ expectedSplits s.time ps,
        target := s.target, lastSplitTime := s.time + tTotal ps } := by
  induction ps with
  | nil =>
      intro s h hb
      show s = _
      cases s
      simp_all [sessionEvents, tTotal, expectedSplits]
  | cons p ps ih =>
      intro s h hb
      show (List.replicate p.1 Ev.tick ++ (Ev.split p.2 :: sessionEvents ps)).foldl step s = _
      rw [List.foldl_append, foldl_step_replicate_tick, doTicks_running p.1 s h,
        List.foldl_cons]
      have hsplit : step { s with time := s.time + 10 * (p.1 : ℤ) } (Ev.split p.2) =
          { time := s.time + 10 * (p.1 : ℤ), isRunning := true,
            splits := s.splits ++
              [SplitTime.mk p.2
                (timeString (formatTime ((s.time + 10 * (p.1 : ℤ) : ℤ) : ℚ)))
                (10 * (p.1 : ℤ))
                (timeString (formatTime ((10 * (p.1 : ℤ) : ℤ) : ℚ)))],
            target := s.target, lastSplitTime := s.time + 10 * (p.1 : ℤ) } := by
        show handleSplit p.2 _ = _
        simp only [handleSplit]
        simp [h, hb]
      rw [hsplit, ih _ rfl rfl]
      have ht : tTotal (p :: ps) = 10 * (p.1 : ℤ) + tTotal ps := by
        unfold tTotal
        rw [List.map_cons, List.sum_cons]
        push_cast
        ring
      have hsp : (s.splits ++
            [SplitTime.mk p.2
              (timeString (formatTime ((s.time + 10 * (p.1 : ℤ) : ℤ) : ℚ)))
              (10 * (p.1 : ℤ))
              (timeString (formatTime ((10 * (p.1 : ℤ) : ℤ) : ℚ)))]) ++
          expectedSplits (s.time + 10 * (p.1 : ℤ)) ps =
          s.splits ++ expectedSplits s.time (p :: ps) := by
        rw [List.append_assoc]
        rfl
      rw [ht, hsp]
      simp only [State.mk.injEq, eq_self_iff_true, and_true, true_and]
      constructor <;> ring

lemma get_congr {α : Type} (l l2 : List α) (h : l = l2) (i : ℕ) (hi : i < l.length) :
    l.get ⟨i, hi⟩ = l2.get ⟨i, h ▸ hi⟩ := by
  subst h
  rfl

lemma expectedSplits_map_duration (ps : List (ℕ × ℤ)) : ∀ t0 : ℤ,
    (expectedSplits t0 ps).map (·.duration) = ps.map (fun p => 10 * (p.1 : ℤ)) := by
  induction ps with
  | nil => intro t0; rfl
  | cons p ps ih =>
      intro t0
      simp [expectedSplits, ih]

lemma expectedSplits_length (ps : List (ℕ × ℤ)) : ∀ t0 : ℤ,
    (expectedSplits t0 ps).length = ps.length := by
  induction ps with
  | nil => intro t0; rfl
  | cons p ps ih =>
      intro t0
      simp [expectedSplits, ih]

lemma expectedSplits_get_duration (ps : List (ℕ × ℤ)) : ∀ (t0 : ℤ) (i : ℕ)
    (hi : i < (expectedSplits t0 ps).length) (hj : i < ps.length),
    ((expectedSplits t0 ps).get ⟨i, hi⟩).duration = 10 * ((ps.get ⟨i, hj⟩).1 : ℤ) := by
  induction ps with
  | nil =>
      intro t0 i hi hj
      exact absurd hj (by simp)
  | cons p ps ih =>
      intro t0 i hi hj
      cases i with
      | zero => rfl
      | succ i =>
          exact ih (t0 + 10 * (p.1 : ℤ)) i
            (by simpa [expectedSplits] using hi) (Nat.lt_of_succ_lt_succ hj)

lemma tTime_cons (p : ℕ × ℤ) (ps : List (ℕ × ℤ)) (i : ℕ) :
    tTime (p :: ps) (i + 1) = 10 * (p.1 : ℤ) + tTime ps i := by
  unfold tTime tTotal
  rw [List.take_succ_cons, List.map_cons, List.sum_cons]
  push_cast
  ring

lemma tTime_succ_sub (ps : List (ℕ × ℤ)) : ∀ (i : ℕ) (h : i < ps.length),
    tTime ps (i + 1) - tTime ps i = 10 * ((ps.get ⟨i, h⟩).1 : ℤ) := by
  induction ps with
  | nil =>
      intro i h
      exact absurd h (by simp)
  | cons p ps ih =>
      intro i h
      cases i with
      | zero =>
          rw [tTime_cons]
          show 10 * (p.1 : ℤ) + tTime ps 0 - tTime (p :: ps) 0 = 10 * (p.1 : ℤ)
          show 10 * (p.1 : ℤ) + tTotal [] - tTotal [] = 10 * (p.1 : ℤ)
          simp [tTotal]
      | succ i =>
          rw [tTime_cons, tTime_cons]
          have hrec := ih i (Nat.lt_of_succ_lt_succ h)
          show _ = 10 * ((ps.get ⟨i, Nat.lt_of_succ_lt_succ h⟩).1 : ℤ)
          omega

/-- C6: in a run that starts the stopwatch and records `N` splits while
running — the `i`-th split after `nᵢ ≥ 1` further ticks, so at the
strictly increasing cumulative elapsed times `tᵢ = tTime ps i` — the
`i`-th recorded split's lap duration equals `tᵢ − tᵢ₋₁` (with `t₀ = 0`),
and after each split the last split boundary equals that split's
cumulative elapsed time. -/
theorem split_lap_durations (ps : List (ℕ × ℤ)) (hpos : ∀ p ∈ ps, 1 ≤ p.1) :
    ((run (Ev.toggle :: sessionEvents ps)).splits.map (·.duration) =
        ps.map (fun p => 10 * (p.1 : ℤ))) ∧
    (∀ i, i < ps.length → tTime ps i < tTime ps (i + 1)) ∧
    (∀ i (hi : i < (run (Ev.toggle :: sessionEvents ps)).splits.length),
        ((run (Ev.toggle :: sessionEvents ps)).splits.get ⟨i, hi⟩).duration =
          tTime ps (i + 1) - tTime ps i) ∧
    (∀ i, i ≤ ps.length →
        (run (Ev.toggle :: sessionEvents (ps.take i))).lastSplitTime = tTime ps i) ∧
    (run (Ev.toggle :: sessionEvents ps)).time = tTime ps ps.length := by
  have hrun : ∀ qs : List (ℕ × ℤ),
      run (Ev.toggle :: sessionEvents qs) =
        { time := tTotal qs, isRunning := true, splits := expectedSplits 0 qs,
          target := { hours := "00", minutes := "00", seconds := "00" },
          lastSplitTime := tTotal qs } := by
    intro qs
    show (sessionEvents qs).foldl step (step initState Ev.toggle) = _
    have h0 : step initState Ev.toggle =
        { time := 0, isRunning := true, splits := [],
          target := { hours := "00", minutes := "00", seconds := "00" },
          lastSplitTime := 0 } := rfl
    rw [h0, session_run qs _ rfl rfl]
    dsimp only
    rw [zero_add (tTotal qs), List.nil_append]
  refine ⟨?_, ?_, ?_, ?_, ?_⟩
  · rw [hrun ps]
    exact expectedSplits_map_duration ps 0
  · intro i hi
    have hd := tTime_succ_sub ps i hi
    have hp := hpos (ps.get ⟨i, hi⟩) (List.get_mem ps i hi)
    omega
  · intro i hi
    have hsp : (run (Ev.toggle :: sessionEvents ps)).splits = expectedSplits 0 ps := by
      rw [hrun ps]
    have hj : i < ps.length := by
      rw [hsp, expectedSplits_length ps 0] at hi
      exact hi
    rw [get_congr _ _ hsp i hi]
    exact (expectedSplits_get_duration ps 0 i
      (hsp ▸ hi) hj).trans (tTime_succ_sub ps i hj).symm
  · intro i hile
    rw [hrun (ps.take i)]
    rfl
  · rw [hrun ps]
    show tTotal ps = tTime ps ps.length
    unfold tTime
    rw [List.take_length]

/-- Witness for C6 at the spec's end-to-end example: splits at 1500 ms
and 4200 ms give lap durations 1500 and 2700. -/
theorem split_lap_durations_witness :
    (run (Ev.toggle :: sessionEvents [(150, 7), (270, 8)])).splits.map (·.duration) =
      [1500, 2700] ∧ tTime [(150, 7), (270, 8)] 2 = 4200 := by
  constructor
  · have h := (split_lap_durations [(150, 7), (270, 8)] (by decide)).1
    rw [h]
    decide
  · decide
